import Mathlib

/-!
Verification of the manifest-resolution and archive-ingestion engine of
`download_nvidia.py` (Easy-CUDA-CuDNN-Downloader).

The Python source is shallowly embedded: pure string manipulation
(`os.path.join`, `os.path.basename`, `str.split`, `re.search` on literal
patterns) becomes Lean string functions built by structural recursion on
the character list; the filesystem is a list of existing path strings
(for existence checks) or a partial map from segment lists to nodes (for
the tree-copying claims); the HTTP layer is an oracle
`status : String → Nat` per the spec's stated abstraction of `urlopen`;
raised Python exceptions become `Except String`.
-/

namespace DN

/-- Whether `pat` is a leading segment of `s` (character-wise). -/
def startsWithL : List Char → List Char → Bool
  | _, [] => true
  | [], _ :: _ => false
  | a :: as, b :: bs => a = b && startsWithL as bs

/-- Occurrence of a literal pattern anywhere in a character list, mirroring
Python `pat in s` and `re.search` applied to a literal pattern. -/
def containsL : List Char → List Char → Bool
  | [], pat => startsWithL [] pat
  | a :: as, pat => startsWithL (a :: as) pat || containsL as pat

/-- Occurrence of a literal pattern inside a string (Python `pat in s`,
`re.search` of a literal). -/
def containsSubstr (s pat : String) : Bool :=
  containsL s.data pat.data

/-- Split of a character list at every occurrence of the character `c`,
keeping empty pieces, mirroring Python `s.split(c)` for a one-character
separator. -/
def splitCharL (c : Char) : List Char → List (List Char)
  | [] => [[]]
  | a :: as =>
    let r := splitCharL c as
    if a = c then [] :: r
    else
      match r with
      | h :: t => (a :: h) :: t
      | [] => [[a]]

/-- Python `s.split(c)` for a one-character separator, as strings. -/
def splitChar (c : Char) (s : String) : List String :=
  (splitCharL c s.data).map List.asString

/-- Model of POSIX `os.path.join` for two components: an absolute second
component wins; otherwise the parts are glued with `/` unless the first
part is empty or already ends with the separator. -/
def pathJoin (a b : String) : String :=
  if startsWithL b.data ['/'] then b
  else if a = "" then b
  else if a.data.getLast? = some '/' then a ++ b
  else a ++ "/" ++ b

/-- Model of POSIX `os.path.basename`: everything after the last `/`. -/
def basename (p : String) : String :=
  (splitChar '/' p).getLastD p

/-- Resolution of a possibly relative path against the working directory,
as `os.path.exists` and `open` do implicitly. -/
def absolutize (cwd p : String) : String :=
  if startsWithL p.data ['/'] then p else pathJoin cwd p

/-- Existence check of a path (relative paths resolved against `cwd`)
against the set `fs` of absolutized paths that exist. -/
def pathExists (fs : List String) (cwd p : String) : Bool :=
  fs.contains (absolutize cwd p)

/-- Result of one `fetch_file` call (lines 120-128): the file written, if
any, and the lines printed.  A non-200 status writes nothing and raises
nothing. -/
def fetch_file (status : String → Nat) (full_path filename : String) :
    Option String × List String :=
  if status full_path ≠ 200 then
    (none, ["  -> Failed: " ++ filename])
  else
    (some filename, [":: Fetching: " ++ full_path, "  -> Wrote: " ++ filename])

/-- Observable outcome of one `parse_artifact` call (lines 160-192):
whether the network was contacted, which file (if any) the fetch wrote,
which path (if any) was appended to `ARCHIVES[platform]`, the final value
of the local variable `file_path`, and the lines printed. -/
structure ParseResult where
  fetched : Bool
  wrote : Option String
  recorded : Option String
  filePath : String
  log : List String
  deriving Repr, DecidableEq

/-- Model of `parse_artifact` (lines 147-192) after the `relative_path`
lookup: `full_path = parent + relative_path`, `filename` its basename,
`pwd = os.path.join(cwd, component, platform)`.  The fetch guard tests the
string-concatenated candidates `parent + filename` and `pwd + filename`
exactly as the source does, while the fall-back `elif` chain tests the
`os.path.join`-ed candidates. -/
def parse_artifact (parent relPath component platform : String)
    (retrieve : Bool) (cwd : String) (fs : List String)
    (status : String → Nat) : ParseResult :=
  let full_path := parent ++ relPath
  let filename := basename full_path
  let pwd := pathJoin (pathJoin cwd component) platform
  if retrieve && !pathExists fs cwd filename && !pathExists fs cwd full_path
      && !pathExists fs cwd (parent ++ filename)
      && !pathExists fs cwd (pwd ++ filename) then
    let fr := fetch_file status full_path filename
    { fetched := true, wrote := fr.1, recorded := some filename,
      filePath := filename, log := fr.2 }
  else if pathExists fs cwd filename then
    { fetched := false, wrote := none, recorded := some filename,
      filePath := filename, log := ["  -> Found: " ++ filename] }
  else if pathExists fs cwd full_path then
    { fetched := false, wrote := none, recorded := some full_path,
      filePath := full_path, log := ["  -> Found: " ++ full_path] }
  else if pathExists fs cwd (pathJoin parent filename) then
    { fetched := false, wrote := none, recorded := some (pathJoin parent filename),
      filePath := pathJoin parent filename,
      log := ["  -> Found: " ++ pathJoin parent filename] }
  else if pathExists fs cwd (pathJoin pwd filename) then
    { fetched := false, wrote := none, recorded := some (pathJoin pwd filename),
      filePath := pathJoin pwd filename,
      log := ["  -> Found: " ++ pathJoin pwd filename] }
  else
    { fetched := false, wrote := none, recorded := none,
      filePath := filename,
      log := ["Parent: " ++ pathJoin pwd filename, "  -> Artifact: " ++ filename] }

/-- Archive kind dispatch of `post_action` (lines 257-276): any occurrence
of the literal `.tar.` (from `re.search(r"\.tar\.", archive)`) routes to
the tar extractor; otherwise any occurrence of the literal `.zip` (from
`re.search(r"\.zip", archive)`) routes to the zip extractor; otherwise the
archive falls through both branches. -/
inductive Route where
  | tar
  | zip
  | skipped
  deriving Repr, DecidableEq

/-- Classification of one archive path, per the `if`/`elif` chain of
`post_action`. -/
def routeArchive (archive : String) : Route :=
  if containsSubstr archive ".tar." then .tar
  else if containsSubstr archive ".zip" then .zip
  else .skipped

/-- BinTag derivation of `post_action` (lines 250-255):
`archive.split("-")[3].split("_")[1]` under a bare `except` that maps any
`IndexError` to `None`. -/
def binTag (archive : String) : Option String :=
  match (splitChar '-' archive).get? 3 with
  | none => none
  | some seg => (splitChar '_' seg).get? 1

/-- Destination adjustment of `flatten_tree` (lines 137-139):
`if tag: dest = os.path.join(dest, tag)`; Python truthiness makes both
`None` and the empty string leave `dest` unchanged. -/
def flattenDest (dest : String) (tag : Option String) : String :=
  match tag with
  | some t => if t = "" then dest else pathJoin dest t
  | none => dest

/-- Longest common character prefix of two character lists. -/
def commonPrefix2L : List Char → List Char → List Char
  | a :: as, b :: bs => if a = b then a :: commonPrefix2L as bs else []
  | _, _ => []

/-- Model of the `os.path` common-prefix helper used on the archive entry
names: the longest common string prefix of all names, empty for the empty
list. -/
def commonPrefixAll : List String → String
  | [] => ""
  | h :: t => List.asString (t.foldl (fun acc x => commonPrefix2L acc x.data) h.data)

/-- Octal `0o200`, `stat.S_IWRITE` (owner-write permission bit). -/
def S_IWRITE : Nat := 128

/-- Model of `fix_permissions` (lines 130-135): the `os.walk` over the
directory is abstracted to the list of its regular files paired with
their current `st_mode` bits; each file is `chmod`-ed to
`st_mode | stat.S_IWRITE`. -/
def fix_permissions (files : List (String × Nat)) : List (String × Nat) :=
  files.map (fun fm => (fm.1, fm.2 ||| S_IWRITE))

/-- Node stored at a path of the modelled filesystem tree: a regular file
with abstract content, or a symbolic link with its target text. -/
inductive FSNode where
  | file : Nat → FSNode
  | symlink : String → FSNode
  deriving Repr, DecidableEq

/-- A filesystem as a partial map from paths (segment lists) to nodes;
directories are implicit as path prefixes. -/
abbrev FileSys := List String → Option FSNode

/-- Model of `shutil.copytree(src, dest, symlinks=1, dirs_exist_ok=1,
ignore_dangling_symlinks=1)` by its documented semantics: the tree under
`src` is merged into `dst`, corresponding existing entries are
overwritten, unrelated entries under `dst` survive, and symlink nodes are
copied as symlink nodes. -/
def copytree (fs : FileSys) (src dst : List String) : FileSys :=
  fun p =>
    if dst.isPrefixOf p && (fs (src ++ p.drop dst.length)).isSome then
      fs (src ++ p.drop dst.length)
    else fs p

/-- Model of `shutil.rmtree(src)`: everything at or below `src` is gone. -/
def rmtree (fs : FileSys) (src : List String) : FileSys :=
  fun p => if src.isPrefixOf p then none else fs p

/-- Segment-list version of the `flatten_tree` tag adjustment
(`if tag: dest = os.path.join(dest, tag)`, with Python truthiness). -/
def flattenDestSeg (dest : List String) (tag : Option String) : List String :=
  match tag with
  | some t => if t = "" then dest else dest ++ [t]
  | none => dest

/-- Model of `flatten_tree` (lines 137-145): adjust the destination by the
tag, `copytree` the staging tree into it (the `except FileExistsError:
pass` handler is inert under the documented `dirs_exist_ok` semantics),
then `rmtree` the staging tree. -/
def flatten_tree (fs : FileSys) (src dest : List String) (tag : Option String) :
    FileSys :=
  rmtree (copytree fs src (flattenDestSeg dest tag)) src

/-- A JSON value as far as the manifest walk inspects it: a string leaf or
an object, the latter as an insertion-ordered association list, matching
Python's order-preserving `dict` from `json.loads`. -/
inductive JVal where
  | jstr : String → JVal
  | jobj : List (String × JVal) → JVal

/-- First-match association lookup, modelling Python `dict` access and the
`in` key test (JSON objects have unique keys). -/
def alookup {α : Type} (m : List (String × α)) (k : String) : Option α :=
  (m.find? (fun kv => kv.1 == k)).map (fun kv => kv.2)

/-- Mutable state threaded through `fetch_action`: the global `ARCHIVES`
accumulator (as an insertion-ordered association list), the printed lines,
the URLs fetched, the files written, the `parse_artifact` invocations
(component, platform, optional variant), and the set of existing paths,
which grows by the files the fetches write. -/
structure WalkState where
  archives : List (String × List String)
  log : List String
  fetches : List String
  writes : List String
  resolutions : List (String × String × Option String)
  fs : List String
  deriving Repr, DecidableEq

/-- `ARCHIVES[platform] = []` guarded by `platform not in ARCHIVES`
(lines 210-211). -/
def insertEmpty (m : List (String × List String)) (k : String) :
    List (String × List String) :=
  if (m.find? (fun kv => kv.1 == k)).isSome then m else m ++ [(k, [])]

/-- `ARCHIVES[k].append(v)` on the association-list model. -/
def appendAt (m : List (String × List String)) (k v : String) :
    List (String × List String) :=
  m.map (fun kv => if kv.1 == k then (kv.1, kv.2 ++ [v]) else kv)

/-- `relative_path` extraction from a flat platform (or variant) object:
anything other than an object carrying a string `relative_path` raises in
Python, modelled as `none`. -/
def relPathValue : JVal → Option String
  | .jobj kvs =>
    match alookup kvs "relative_path" with
    | some (.jstr s) => some s
    | _ => none
  | _ => none

/-- The `relative_path` lookup at the top of `parse_artifact`
(lines 155-158): through the variant key when one is given. -/
def relPathOf (pval : JVal) (variant : Option String) : Option String :=
  match variant with
  | none => relPathValue pval
  | some vk =>
    match pval with
    | .jobj kvs =>
      match alookup kvs vk with
      | some vv => relPathValue vv
      | none => none
    | _ => none

/-- The state update one `parse_artifact` call performs (lines 160-192)
once its `relative_path` is resolved: record the invocation, append the
printed lines, the fetched URL, the written file (which from then on
exists), and the archive-list entry. -/
def applyParse (parent rp component platform : String)
    (variant : Option String) (retrieve : Bool) (cwd : String)
    (status : String → Nat) (s : WalkState) : WalkState :=
  let r := parse_artifact parent rp component platform retrieve cwd s.fs status
  { s with
    resolutions := s.resolutions ++ [(component, platform, variant)],
    log := s.log ++ r.log,
    fetches := s.fetches ++ (if r.fetched then [parent ++ rp] else []),
    writes := s.writes ++ r.wrote.toList,
    fs := s.fs ++ (r.wrote.map (absolutize cwd)).toList,
    archives :=
      match r.recorded with
      | some a => appendAt s.archives platform a
      | none => s.archives }

/-- One `parse_artifact` call as seen from `fetch_action`: resolve the
`relative_path` (a missing or non-string one raises, modelled as
`.error`), run the pure body, and fold its effects into the walk state. -/
def parse_artifact_s (parent : String) (pval : JVal)
    (component platform : String) (retrieve : Bool) (variant : Option String)
    (cwd : String) (status : String → Nat) (s : WalkState) :
    Except String WalkState :=
  match relPathOf pval variant with
  | none => .error ("KeyError: relative_path " ++ component ++ "/" ++ platform)
  | some rp =>
    .ok (applyParse parent rp component platform variant retrieve cwd status s)

/-- The variant loop of `fetch_action` (lines 223-235): iterate the
variant keys of the platform object `pobj`, skip (with a log line) any
key differing from an active variant filter, and resolve the rest. -/
def variantLoop (parent component platform : String)
    (cuda_filter : Option String) (retrieve : Bool) (cwd : String)
    (status : String → Nat) (pobj : JVal) :
    List (String × JVal) → WalkState → Except String WalkState
  | [], s => .ok s
  | vkv :: rest, s =>
    let skipVar :=
      match cuda_filter with
      | some cf => vkv.1 != cf
      | none => false
    if skipVar then
      variantLoop parent component platform cuda_filter retrieve cwd status pobj
        rest { s with log := s.log ++ ["  -> Skipping variant: " ++ vkv.1] }
    else
      match parse_artifact_s parent pobj component platform retrieve
          (some vkv.1) cwd status s with
      | .error e => .error e
      | .ok s1 =>
        variantLoop parent component platform cuda_filter retrieve cwd status
          pobj rest s1

/-- Processing of one platform key of a component (lines 206-239): keys
containing `variant` are passed over silently; the key is entered into
`ARCHIVES` with an empty list; string values fall through the
`isinstance` test; the platform filter (with the `source` pass-through)
can skip with a log line; then the entry is resolved flat or
per-variant. -/
def platformStep (parent component : String)
    (platform_filter cuda_filter : Option String) (retrieve : Bool)
    (cwd : String) (status : String → Nat) (platform : String) (pval : JVal)
    (s : WalkState) : Except String WalkState :=
  if containsSubstr platform "variant" then .ok s
  else
    let s1 := { s with archives := insertEmpty s.archives platform }
    match pval with
    | .jstr _ => .ok s1
    | .jobj kvs =>
      let skipPlat :=
        match platform_filter with
        | some pf => platform != pf && platform != "source"
        | none => false
      if skipPlat then
        .ok { s1 with log := s1.log ++ ["  -> Skipping platform: " ++ platform] }
      else if (alookup kvs "relative_path").isNone then
        variantLoop parent component platform cuda_filter retrieve cwd status
          (.jobj kvs) kvs s1
      else
        parse_artifact_s parent (.jobj kvs) component platform retrieve none
          cwd status s1

/-- The platform loop of `fetch_action` for one component. -/
def platformLoop (parent component : String)
    (platform_filter cuda_filter : Option String) (retrieve : Bool)
    (cwd : String) (status : String → Nat) :
    List (String × JVal) → WalkState → Except String WalkState
  | [], s => .ok s
  | kv :: rest, s =>
    match platformStep parent component platform_filter cuda_filter retrieve
        cwd status kv.1 kv.2 s with
    | .error e => .error e
    | .ok s1 =>
      platformLoop parent component platform_filter cuda_filter retrieve cwd
        status rest s1

/-- Processing of one component entry of the manifest (lines 197-239):
entries without a `name` key are skipped, the component filter is
exact-match-or-pass-through, the `name: version` header line is printed
(a non-string `name`/`version` raises), then the platforms are walked. -/
def walkComponent (parent : String)
    (component_filter platform_filter cuda_filter : Option String)
    (retrieve : Bool) (cwd : String) (status : String → Nat)
    (component : String) (centry : List (String × JVal)) (s : WalkState) :
    Except String WalkState :=
  if (alookup centry "name").isNone then .ok s
  else
    let skipComp :=
      match component_filter with
      | some cf => component != cf
      | none => false
    if skipComp then .ok s
    else
      match alookup centry "name", alookup centry "version" with
      | some (.jstr n), some (.jstr ver) =>
        platformLoop parent component platform_filter cuda_filter retrieve cwd
          status centry { s with log := s.log ++ ["\n" ++ n ++ ": " ++ ver] }
      | _, _ => .error ("bad name/version for component " ++ component)

/-- Model of `fetch_action` (lines 194-239): walk the manifest's
components in order, threading the accumulator state; any raised lookup
error aborts the walk (and, in `main`, the run). -/
def fetch_action (parent : String)
    (component_filter platform_filter cuda_filter : Option String)
    (retrieve : Bool) (cwd : String) (status : String → Nat) :
    List (String × List (String × JVal)) → WalkState →
    Except String WalkState
  | [], s => .ok s
  | ce :: rest, s =>
    match walkComponent parent component_filter platform_filter cuda_filter
        retrieve cwd status ce.1 ce.2 s with
    | .error e => .error e
    | .ok s1 =>
      fetch_action parent component_filter platform_filter cuda_filter
        retrieve cwd status rest s1

/-- Effects of the ingestion stage `post_action`: printed lines, created
directories, archives whose extraction ran, staging trees
permission-fixed, and `flatten_tree` calls as (staging tree, adjusted
destination) pairs. -/
structure IngestState where
  log : List String
  mkdirs : List String
  extracted : List String
  permfixed : List String
  flattens : List (String × String)
  deriving Repr, DecidableEq

/-- Ingestion of a single archive (lines 250-285): BinTag parse, archive
kind dispatch, extraction through the oracle `extract` (returning the
archive's entry names, or an error for a corrupt archive, which
propagates: the source wraps only the BinTag split in `try`), permission
fix of the staging tree, and — when collapsing — a `flatten_tree` into
`os.path.join(output_dir, platform)` adjusted by the BinTag. -/
def ingestOne (output_dir platform : String) (collapse : Bool)
    (extract : String → Except String (List String)) (archive : String)
    (st : IngestState) : Except String IngestState :=
  let tag := binTag archive
  match routeArchive archive with
  | .skipped => .ok st
  | .tar =>
    let st1 := { st with log := st.log ++ [":: tar: " ++ archive] }
    match extract archive with
    | .error e => .error e
    | .ok names =>
      let topdir := commonPrefixAll names
      let st2 := { st1 with
        extracted := st1.extracted ++ [archive],
        log := st1.log ++ ["  -> Extracted: " ++ topdir ++ "/"],
        permfixed := st1.permfixed ++ [topdir] }
      if collapse then
        let flatdir := pathJoin output_dir platform
        .ok { st2 with
          flattens := st2.flattens ++ [(topdir, flattenDest flatdir tag)],
          log := st2.log ++ ["  -> Flattened: " ++ flatdir ++ "/"] }
      else .ok st2
  | .zip =>
    let st1 := { st with log := st.log ++ [":: zip: " ++ archive] }
    match extract archive with
    | .error e => .error e
    | .ok names =>
      let topdir := commonPrefixAll names
      let st2 := { st1 with
        extracted := st1.extracted ++ [archive],
        log := st1.log ++ ["  -> Extracted: " ++ topdir],
        permfixed := st1.permfixed ++ [topdir] }
      if collapse then
        let flatdir := pathJoin output_dir platform
        .ok { st2 with
          flattens := st2.flattens ++ [(topdir, flattenDest flatdir tag)],
          log := st2.log ++ ["  -> Flattened: " ++ flatdir ++ "/"] }
      else .ok st2

/-- The archive loop of `post_action` for one platform. -/
def ingestList (output_dir platform : String) (collapse : Bool)
    (extract : String → Except String (List String)) :
    List String → IngestState → Except String IngestState
  | [], st => .ok st
  | a :: rest, st =>
    match ingestOne output_dir platform collapse extract a st with
    | .error e => .error e
    | .ok st1 => ingestList output_dir platform collapse extract rest st1

/-- The platform loop of `post_action`. -/
def ingestPlatforms (output_dir : String) (collapse : Bool)
    (extract : String → Except String (List String)) :
    List (String × List String) → IngestState → Except String IngestState
  | [], st => .ok st
  | p :: rest, st =>
    match ingestList output_dir p.1 collapse extract p.2 st with
    | .error e => .error e
    | .ok st1 => ingestPlatforms output_dir collapse extract rest st1

/-- Model of `post_action` (lines 241-292): an empty `ARCHIVES` returns
immediately; otherwise the output directory is created when missing and
every accumulated archive is ingested.  The final sorted directory
listing (lines 287-292) is pure observability over the real filesystem
and is not modelled. -/
def post_action (output_dir : String) (archives : List (String × List String))
    (collapse : Bool) (dirExists : Bool)
    (extract : String → Except String (List String)) :
    Except String IngestState :=
  if archives.length = 0 then
    .ok { log := [], mkdirs := [], extracted := [], permfixed := [], flattens := [] }
  else
    ingestPlatforms output_dir collapse extract archives
      { log := ["\nArchives:"],
        mkdirs := if dirExists then [] else [output_dir],
        extracted := [], permfixed := [], flattens := [] }

/-- Model of the `--download-only` branch of `main` (lines 564-588): load
the manifest (`loadResult` stands for `urlopen` + `json.loads`), run
`fetch_action` with the platform filter `{os}-{arch}`, then `post_action`;
the one `try`/`except` around the whole branch maps any raised error to
exit status 1 and success to `sys.exit(0)`. -/
def main_download_only
    (loadResult : Except String (List (String × List (String × JVal))))
    (parent : String) (component_filter : Option String) (platform : String)
    (variant_filter : Option String) (output : String) (cwd : String)
    (status : String → Nat) (fs0 : List String)
    (extract : String → Except String (List String)) (dirExists : Bool) :
    Nat :=
  match loadResult with
  | .error _ => 1
  | .ok manifest =>
    match fetch_action parent component_filter (some platform) variant_filter
        true cwd status manifest
        { archives := [], log := [], fetches := [], writes := [],
          resolutions := [], fs := fs0 } with
    | .error _ => 1
    | .ok s =>
      match post_action output s.archives true dirExists extract with
      | .error _ => 1
      | .ok _ => 0

/-- A concrete flat-platform manifest used to instantiate theorems: one
component with a filtered platform, an unrelated platform, and the
`source` pseudo-platform. -/
def exManifestA : List (String × List (String × JVal)) :=
  [("comp",
    [("name", .jstr "N"), ("version", .jstr "1"),
     ("linux-x86_64", .jobj [("relative_path", .jstr "p-q-r-s_t.tar.xz")]),
     ("windows-x86_64", .jobj [("relative_path", .jstr "w.zip")]),
     ("source", .jobj [("relative_path", .jstr "src.tar.gz")])])]

/-- The walk state produced by `fetch_action` on `exManifestA` with the
platform filter `linux-x86_64`, the artifact already cached in the
working directory, and every remaining fetch answered with status 200. -/
def exWalkStateA : WalkState :=
  { archives := [("name", []), ("version", []),
      ("linux-x86_64", ["p-q-r-s_t.tar.xz"]), ("windows-x86_64", []),
      ("source", ["src.tar.gz"])],
    log := ["\nN: 1", "  -> Found: p-q-r-s_t.tar.xz",
      "  -> Skipping platform: windows-x86_64", ":: Fetching: /b/src.tar.gz",
      "  -> Wrote: src.tar.gz"],
    fetches := ["/b/src.tar.gz"],
    writes := ["src.tar.gz"],
    resolutions := [("comp", "linux-x86_64", none), ("comp", "source", none)],
    fs := ["/cwd/p-q-r-s_t.tar.xz", "/cwd/src.tar.gz"] }

/-- The variant map of the spec's fan-out example: two CUDA variants with
distinct relative paths. -/
def exVariants : List (String × JVal) :=
  [("cuda11", .jobj [("relative_path", .jstr "a-b-c-11.tar.gz")]),
   ("cuda12", .jobj [("relative_path", .jstr "a-b-c-12.tar.gz")])]

/-- The spec's variant fan-out example manifest: one cudnn-style component
whose platform entry nests two variants. -/
def exManifestB : List (String × List (String × JVal)) :=
  [("cudnn_x",
    [("name", .jstr "n"), ("version", .jstr "v"),
     ("linux-x86_64", .jobj exVariants)])]

/-- The walk state produced by `fetch_action` on `exManifestB` with no
filters, an empty local filesystem, and fetches answered with 200. -/
def exWalkStateB : WalkState :=
  { archives := [("name", []), ("version", []),
      ("linux-x86_64", ["a-b-c-11.tar.gz", "a-b-c-12.tar.gz"])],
    log := ["\nn: v", ":: Fetching: /b/a-b-c-11.tar.gz",
      "  -> Wrote: a-b-c-11.tar.gz", ":: Fetching: /b/a-b-c-12.tar.gz",
      "  -> Wrote: a-b-c-12.tar.gz"],
    fetches := ["/b/a-b-c-11.tar.gz", "/b/a-b-c-12.tar.gz"],
    writes := ["a-b-c-11.tar.gz", "a-b-c-12.tar.gz"],
    resolutions := [("cudnn_x", "linux-x86_64", some "cuda11"),
      ("cudnn_x", "linux-x86_64", some "cuda12")],
    fs := ["/cwd/a-b-c-11.tar.gz", "/cwd/a-b-c-12.tar.gz"] }

/-- The initial walk state of a run (empty accumulator) over the local
files `fs0`. -/
def initState (fs0 : List String) : WalkState :=
  { archives := [], log := [], fetches := [], writes := [],
    resolutions := [], fs := fs0 }

/-- A flat manifest without a `source` platform, used to exercise a run in
which the platform filter excludes every platform. -/
def exManifestC : List (String × List (String × JVal)) :=
  [("comp2",
    [("name", .jstr "N2"), ("version", .jstr "2"),
     ("linux-x86_64", .jobj [("relative_path", .jstr "p-q-r-s_t.tar.xz")]),
     ("windows-x86_64", .jobj [("relative_path", .jstr "w.zip")])])]

/-- The walk state produced by `fetch_action` on `exManifestC` with the
platform filter `other-arch`, which matches nothing: every platform key is
present in the accumulator, all mapped to empty lists. -/
def exWalkStateC : WalkState :=
  { archives := [("name", []), ("version", []), ("linux-x86_64", []),
      ("windows-x86_64", [])],
    log := ["\nN2: 2", "  -> Skipping platform: linux-x86_64",
      "  -> Skipping platform: windows-x86_64"],
    fetches := [], writes := [], resolutions := [], fs := [] }

/-- Verification predicate for the accumulator: every non-empty archive
list belongs to the filtered platform `P` or to `source`. -/
def restrictedTo (P : String) (m : List (String × List String)) : Prop :=
  ∀ k l, alookup m k = some l → l ≠ [] → k = P ∨ k = "source"

/-- A concrete filesystem for the `flatten_tree` theorems: a staging tree
with a regular file and a symlink, and a pre-existing unrelated file
under the destination. -/
def exFS : FileSys := fun p =>
  if p = ["stage", "a.txt"] then some (.file 1)
  else if p = ["stage", "sub", "lnk"] then some (.symlink "../a.txt")
  else if p = ["out", "t", "old.txt"] then some (.file 2)
  else none

/-- C1 (amended): `parse_artifact` performs a fetch exactly when `retrieve`
is set and none of `filename`, `parent ++ relative_path`, the
string-concatenation `parent ++ filename`, and the string-concatenation
`pwd ++ filename` exists; when a fetch happens the bare `filename` is
recorded, and otherwise the recorded local path is the first existing
candidate among `filename`, `parent ++ relative_path`,
`join(parent, filename)`, `join(pwd, filename)` in that order (none
existing records nothing); the final `file_path` is the recorded path,
defaulting to `filename`. -/
theorem parse_artifact_cache_precedence
    (parent relPath component platform : String) (retrieve : Bool)
    (cwd : String) (fs : List String) (status : String → Nat) :
    (parse_artifact parent relPath component platform retrieve cwd fs
        status).fetched
      = (retrieve && !pathExists fs cwd (basename (parent ++ relPath))
          && !pathExists fs cwd (parent ++ relPath)
          && !pathExists fs cwd (parent ++ basename (parent ++ relPath))
          && !pathExists fs cwd
              (pathJoin (pathJoin cwd component) platform
                ++ basename (parent ++ relPath)))
    ∧ (parse_artifact parent relPath component platform retrieve cwd fs
        status).recorded
      = (if (parse_artifact parent relPath component platform retrieve cwd fs
            status).fetched
         then some (basename (parent ++ relPath))
         else [basename (parent ++ relPath), parent ++ relPath,
              pathJoin parent (basename (parent ++ relPath)),
              pathJoin (pathJoin (pathJoin cwd component) platform)
                (basename (parent ++ relPath))].find?
            (pathExists fs cwd))
    ∧ (parse_artifact parent relPath component platform retrieve cwd fs
        status).filePath
      = ((parse_artifact parent relPath component platform retrieve cwd fs
          status).recorded.getD (basename (parent ++ relPath))) := by
  by_cases hr : retrieve
    <;> by_cases h1 : pathExists fs cwd (basename (parent ++ relPath))
    <;> by_cases h2 : pathExists fs cwd (parent ++ relPath)
    <;> by_cases h3 : pathExists fs cwd (parent ++ basename (parent ++ relPath))
    <;> by_cases h4 : pathExists fs cwd
          (pathJoin (pathJoin cwd component) platform
            ++ basename (parent ++ relPath))
    <;> by_cases h5 : pathExists fs cwd
          (pathJoin parent (basename (parent ++ relPath)))
    <;> by_cases h6 : pathExists fs cwd
          (pathJoin (pathJoin (pathJoin cwd component) platform)
            (basename (parent ++ relPath)))
    <;> simp [parse_artifact, fetch_file, List.find?, hr, h1, h2, h3, h4, h5, h6]

/-- C1 witness: the precedence theorem applied at a concrete input with
the artifact cached in the working directory. -/
theorem parse_artifact_cache_precedence_witness :
    (parse_artifact "/base/" "sub/a.tar.gz" "c" "p" true "/cwd"
        ["/cwd/a.tar.gz"] (fun _ => 200)).fetched
      = (true && !pathExists ["/cwd/a.tar.gz"] "/cwd"
            (basename ("/base/" ++ "sub/a.tar.gz"))
          && !pathExists ["/cwd/a.tar.gz"] "/cwd" ("/base/" ++ "sub/a.tar.gz")
          && !pathExists ["/cwd/a.tar.gz"] "/cwd"
              ("/base/" ++ basename ("/base/" ++ "sub/a.tar.gz"))
          && !pathExists ["/cwd/a.tar.gz"] "/cwd"
              (pathJoin (pathJoin "/cwd" "c") "p"
                ++ basename ("/base/" ++ "sub/a.tar.gz")))
    ∧ (parse_artifact "/base/" "sub/a.tar.gz" "c" "p" true "/cwd"
        ["/cwd/a.tar.gz"] (fun _ => 200)).recorded
      = (if (parse_artifact "/base/" "sub/a.tar.gz" "c" "p" true "/cwd"
            ["/cwd/a.tar.gz"] (fun _ => 200)).fetched
         then some (basename ("/base/" ++ "sub/a.tar.gz"))
         else [basename ("/base/" ++ "sub/a.tar.gz"),
              "/base/" ++ "sub/a.tar.gz",
              pathJoin "/base/" (basename ("/base/" ++ "sub/a.tar.gz")),
              pathJoin (pathJoin (pathJoin "/cwd" "c") "p")
                (basename ("/base/" ++ "sub/a.tar.gz"))].find?
            (pathExists ["/cwd/a.tar.gz"] "/cwd"))
    ∧ (parse_artifact "/base/" "sub/a.tar.gz" "c" "p" true "/cwd"
        ["/cwd/a.tar.gz"] (fun _ => 200)).filePath
      = ((parse_artifact "/base/" "sub/a.tar.gz" "c" "p" true "/cwd"
          ["/cwd/a.tar.gz"] (fun _ => 200)).recorded.getD
          (basename ("/base/" ++ "sub/a.tar.gz"))) :=
  parse_artifact_cache_precedence "/base/" "sub/a.tar.gz" "c" "p" true "/cwd"
    ["/cwd/a.tar.gz"] (fun _ => 200)

/-- C1 counterexample: with the artifact present exactly at recognized
candidate location (4), `os.path.join(pwd, filename)`, `parse_artifact`
with `retrieve = true` still performs a fetch, because the fetch guard
tests the string concatenation `pwd ++ filename` instead of the joined
path. -/
theorem parse_artifact_fetch_despite_cached_candidate :
    (parse_artifact "/base/" "a.tar.gz" "c" "p" true "/cwd"
        ["/cwd/c/p/a.tar.gz"] (fun _ => 200)).fetched = true
    ∧ pathExists ["/cwd/c/p/a.tar.gz"] "/cwd"
        (pathJoin (pathJoin (pathJoin "/cwd" "c") "p")
          (basename ("/base/" ++ "a.tar.gz"))) = true := by
  decide

/-- C2: at the failing input (artifact `pkg.tar.gz`, empty local cache,
HTTP status 404) the fetch writes no file and raises nothing, yet
`parse_artifact` still appends the artifact's filename to the platform's
archive list, contradicting the claim that a failed artifact is absent
from the accumulated archive list. -/
theorem parse_artifact_records_failed_fetch :
    (parse_artifact "/base/" "pkg.tar.gz" "c" "p" true "/cwd" []
        (fun _ => 404)).fetched = true
    ∧ (parse_artifact "/base/" "pkg.tar.gz" "c" "p" true "/cwd" []
        (fun _ => 404)).wrote = none
    ∧ (parse_artifact "/base/" "pkg.tar.gz" "c" "p" true "/cwd" []
        (fun _ => 404)).recorded = some "pkg.tar.gz"
    ∧ (parse_artifact "/base/" "pkg.tar.gz" "c" "p" true "/cwd" []
        (fun _ => 404)).log = ["  -> Failed: pkg.tar.gz"] := by
  decide

/-- C4 counterexample: the archive path `data.zipx` contains no `.tar.`
and does not have the `.zip` suffix, so the claim says it is skipped; the
code's `re.search(r"\.zip", ...)` matches the mere occurrence and routes
it to the zip extractor. -/
theorem routeArchive_occurrence_counterexample :
    routeArchive "data.zipx" = .zip
    ∧ (".zip".data.isSuffixOf "data.zipx".data = false)
    ∧ containsSubstr "data.zipx" ".tar." = false := by
  decide

/-- C4 (amended): any occurrence of `.tar.` routes to the tar extractor;
otherwise any occurrence of `.zip` anywhere in the path (not only as a
suffix) routes to the zip extractor; a path containing neither falls
through both branches, producing no extraction, no log line, and no state
change at all. -/
theorem routeArchive_dispatch (a output_dir platform : String)
    (collapse : Bool) (extract : String → Except String (List String))
    (st : IngestState) :
    (containsSubstr a ".tar." = true → routeArchive a = .tar)
    ∧ (containsSubstr a ".tar." = false → containsSubstr a ".zip" = true →
        routeArchive a = .zip)
    ∧ (containsSubstr a ".tar." = false → containsSubstr a ".zip" = false →
        routeArchive a = .skipped)
    ∧ (routeArchive a = .skipped →
        ingestOne output_dir platform collapse extract a st = .ok st) := by
  refine ⟨fun h1 => ?_, fun h1 h2 => ?_, fun h1 h2 => ?_, fun h => ?_⟩
  · simp [routeArchive, h1]
  · simp [routeArchive, h1, h2]
  · simp [routeArchive, h1, h2]
  · simp [ingestOne, h]

/-- C4 witness: the dispatch theorem applied at the plain-text path
`README.txt`, which is routed to neither extractor and leaves the
ingestion state untouched. -/
theorem routeArchive_dispatch_witness :
    (containsSubstr "README.txt" ".tar." = true →
      routeArchive "README.txt" = .tar)
    ∧ (containsSubstr "README.txt" ".tar." = false →
        containsSubstr "README.txt" ".zip" = true →
        routeArchive "README.txt" = .zip)
    ∧ (containsSubstr "README.txt" ".tar." = false →
        containsSubstr "README.txt" ".zip" = false →
        routeArchive "README.txt" = .skipped)
    ∧ (routeArchive "README.txt" = .skipped →
        ingestOne "out" "linux-x86_64" true (fun _ => .error "boom")
          "README.txt"
          { log := [], mkdirs := [], extracted := [], permfixed := [],
            flattens := [] }
        = .ok { log := [], mkdirs := [], extracted := [], permfixed := [],
                flattens := [] }) :=
  routeArchive_dispatch "README.txt" "out" "linux-x86_64" true
    (fun _ => .error "boom")
    { log := [], mkdirs := [], extracted := [], permfixed := [], flattens := [] }

/-- C5 counterexample: the code splits the archive's recorded path string,
not its filename.  For the reachable record `/aa-bb-cc-dd_ee/f.tar.gz`
(directory names carrying dashes, as the component/platform-scoped cache
paths do) the code derives the tag `ee/f.tar.gz`, while the claim's
filename-based rule yields an absent tag. -/
theorem binTag_full_path_counterexample :
    binTag "/aa-bb-cc-dd_ee/f.tar.gz" = some "ee/f.tar.gz"
    ∧ binTag (basename "/aa-bb-cc-dd_ee/f.tar.gz") = none := by
  decide

/-- C5 (amended): the BinTag is derived from the archive's recorded path
string: split on `-`; a missing index-3 segment yields an absent tag, as
does a missing index-1 sub-segment after splitting that segment on `_`
(never raising); and with an absent tag the flatten destination of an
ingested archive is exactly `os.path.join(output_dir, platform)` with no
tag subdirectory. -/
theorem binTag_shape_mismatch (archive output_dir platform : String)
    (names : List String) (extract : String → Except String (List String))
    (st : IngestState) :
    ((splitChar '-' archive).length ≤ 3 → binTag archive = none)
    ∧ (∀ seg, (splitChar '-' archive).get? 3 = some seg →
        (splitChar '_' seg).length ≤ 1 → binTag archive = none)
    ∧ (binTag archive = none →
        flattenDest (pathJoin output_dir platform) (binTag archive)
          = pathJoin output_dir platform)
    ∧ (binTag archive = none → routeArchive archive = .tar →
        extract archive = .ok names →
        ∃ st1, ingestOne output_dir platform true extract archive st = .ok st1
          ∧ st1.flattens = st.flattens
              ++ [(commonPrefixAll names, pathJoin output_dir platform)]) := by
  refine ⟨fun h => ?_, fun seg hseg h => ?_, fun h => ?_, fun h hr hx => ?_⟩
  · simp only [binTag]
    rw [List.get?_eq_none.mpr h]
  · simp only [binTag]
    rw [hseg]
    exact List.get?_eq_none.mpr h
  · rw [h]
    simp [flattenDest]
  · simp only [ingestOne, hr, hx, h]
    exact ⟨_, rfl, by simp [flattenDest]⟩

/-- C5 witness: the shape theorem applied to the spec's own end-to-end
filename `libcudart-linux-x86_64-12.4.0-archive.tar.xz`, whose index-3
segment `12.4.0` has no `_` sub-segment, so the tag is absent and the
flatten destination carries no tag subdirectory. -/
theorem binTag_shape_mismatch_witness :
    ((splitChar '-' "libcudart-linux-x86_64-12.4.0-archive.tar.xz").length ≤ 3 →
      binTag "libcudart-linux-x86_64-12.4.0-archive.tar.xz" = none)
    ∧ (∀ seg,
        (splitChar '-' "libcudart-linux-x86_64-12.4.0-archive.tar.xz").get? 3
          = some seg →
        (splitChar '_' seg).length ≤ 1 →
        binTag "libcudart-linux-x86_64-12.4.0-archive.tar.xz" = none)
    ∧ (binTag "libcudart-linux-x86_64-12.4.0-archive.tar.xz" = none →
        flattenDest (pathJoin "out" "linux-x86_64")
          (binTag "libcudart-linux-x86_64-12.4.0-archive.tar.xz")
          = pathJoin "out" "linux-x86_64")
    ∧ (binTag "libcudart-linux-x86_64-12.4.0-archive.tar.xz" = none →
        routeArchive "libcudart-linux-x86_64-12.4.0-archive.tar.xz" = .tar →
        (fun _ : String =>
            (Except.ok ["top/a", "top/b"] : Except String (List String)))
            "libcudart-linux-x86_64-12.4.0-archive.tar.xz"
          = .ok ["top/a", "top/b"] →
        ∃ st1,
          ingestOne "out" "linux-x86_64" true
            (fun _ => .ok ["top/a", "top/b"])
            "libcudart-linux-x86_64-12.4.0-archive.tar.xz"
            { log := [], mkdirs := [], extracted := [], permfixed := [],
              flattens := [] }
            = .ok st1
          ∧ st1.flattens = []
              ++ [(commonPrefixAll ["top/a", "top/b"],
                   pathJoin "out" "linux-x86_64")]) :=
  binTag_shape_mismatch "libcudart-linux-x86_64-12.4.0-archive.tar.xz" "out"
    "linux-x86_64" ["top/a", "top/b"] (fun _ => .ok ["top/a", "top/b"])
    { log := [], mkdirs := [], extracted := [], permfixed := [], flattens := [] }

/-- C9: `fix_permissions` maps every file's mode to itself or-ed with the
owner-write bit: the file names are unchanged, every resulting mode has
the owner-write bit (bit 7) set, no bit present before is cleared, and a
second run changes nothing. -/
theorem fix_permissions_spec (files : List (String × Nat)) :
    List.Forall₂
      (fun old new => old.1 = new.1
        ∧ new.2.testBit 7 = true
        ∧ ∀ i, old.2.testBit i = true → new.2.testBit i = true)
      files (fix_permissions files)
    ∧ fix_permissions (fix_permissions files) = fix_permissions files := by
  constructor
  · induction files with
    | nil => simp [fix_permissions]
    | cons f rest ih =>
      refine List.Forall₂.cons ⟨rfl, ?_, ?_⟩ ih
      · have h7 : Nat.testBit 128 7 = true := by decide
        simp [S_IWRITE, Nat.testBit_lor, h7]
      · intro i hi
        simp [S_IWRITE, Nat.testBit_lor, hi]
  · simp only [fix_permissions, List.map_map]
    refine List.map_congr_left fun fm _ => ?_
    simp [Function.comp, Nat.lor_assoc]

/-- C9 witness: the permission theorem applied to a concrete two-file
directory listing with modes `0o444` and `0o755`. -/
theorem fix_permissions_spec_witness :
    List.Forall₂
      (fun old new => old.1 = new.1
        ∧ new.2.testBit 7 = true
        ∧ ∀ i, old.2.testBit i = true → new.2.testBit i = true)
      [("a.txt", 292), ("b.sh", 493)]
      (fix_permissions [("a.txt", 292), ("b.sh", 493)])
    ∧ fix_permissions (fix_permissions [("a.txt", 292), ("b.sh", 493)])
      = fix_permissions [("a.txt", 292), ("b.sh", 493)] :=
  fix_permissions_spec [("a.txt", 292), ("b.sh", 493)]

/-- Core of the `flatten_tree` correctness: for a destination `d` neither
containing nor contained in the staging tree `src`, the copy-then-remove
composition deletes `src`, relocates every staged node under `d`, and
leaves everything without a staged counterpart untouched. -/
theorem flatten_core (fs : FileSys) (src d : List String)
    (h1 : ¬ src <+: d) (h2 : ¬ d <+: src) :
    (∀ p, src <+: p → rmtree (copytree fs src d) src p = none)
    ∧ (∀ rel n, fs (src ++ rel) = some n →
        rmtree (copytree fs src d) src (d ++ rel) = some n)
    ∧ (∀ p, ¬ src <+: p →
        (¬ d <+: p ∨ fs (src ++ p.drop d.length) = none) →
        rmtree (copytree fs src d) src p = fs p) := by
  refine ⟨?_, ?_, ?_⟩
  · intro p hp
    simp only [rmtree]
    rw [if_pos (List.isPrefixOf_iff_prefix.mpr hp)]
  · intro rel n hn
    have hnp : ¬ src <+: d ++ rel := by
      intro hcon
      rcases le_total src.length d.length with hle | hle
      · exact h1 (List.prefix_of_prefix_length_le hcon (List.prefix_append d rel) hle)
      · exact h2 (List.prefix_of_prefix_length_le (List.prefix_append d rel) hcon hle)
    simp only [rmtree, copytree]
    rw [if_neg (fun hcon => hnp (List.isPrefixOf_iff_prefix.mp hcon))]
    rw [List.drop_left d rel]
    have hc : (d.isPrefixOf (d ++ rel) && (fs (src ++ rel)).isSome) = true := by
      rw [Bool.and_eq_true]
      exact ⟨List.isPrefixOf_iff_prefix.mpr (List.prefix_append d rel),
        by rw [hn]; rfl⟩
    rw [if_pos hc]
    exact hn
  · intro p hp hcase
    simp only [rmtree, copytree]
    rw [if_neg (fun hcon => hp (List.isPrefixOf_iff_prefix.mp hcon))]
    rcases hcase with hnd | hnone
    · rw [if_neg]
      intro hcon
      rw [Bool.and_eq_true] at hcon
      exact hnd (List.isPrefixOf_iff_prefix.mp hcon.1)
    · rw [if_neg]
      intro hcon
      rw [Bool.and_eq_true] at hcon
      rw [hnone] at hcon
      simp at hcon

/-- C6: after `flatten_tree(src, dest, tag)` the staging tree `src` has
been deleted; every node of the staging tree — regular files and symlink
nodes alike — now sits at the corresponding path under the tag-adjusted
destination; and every path outside the staging tree with no staged
counterpart, in particular anything pre-existing under an
already-existing destination, keeps its old node (an existing destination
is a merge, never an error: the function is total). -/
theorem flatten_tree_spec (fs : FileSys) (src dest : List String)
    (tag : Option String)
    (h1 : ¬ src <+: flattenDestSeg dest tag)
    (h2 : ¬ flattenDestSeg dest tag <+: src) :
    (∀ p, src <+: p → flatten_tree fs src dest tag p = none)
    ∧ (∀ rel n, fs (src ++ rel) = some n →
        flatten_tree fs src dest tag (flattenDestSeg dest tag ++ rel) = some n)
    ∧ (∀ p, ¬ src <+: p →
        (¬ flattenDestSeg dest tag <+: p
          ∨ fs (src ++ p.drop (flattenDestSeg dest tag).length) = none) →
        flatten_tree fs src dest tag p = fs p) :=
  flatten_core fs src (flattenDestSeg dest tag) h1 h2

/-- C6 witness: flattening the staging tree `stage` (one regular file and
one symlink) into `out` with tag `t` on the concrete filesystem `exFS`,
which already holds an unrelated file under the destination. -/
theorem flatten_tree_spec_witness :
    (¬ (["stage"] <+: flattenDestSeg ["out"] (some "t")))
    ∧ (¬ (flattenDestSeg ["out"] (some "t") <+: ["stage"]))
    ∧ ((∀ p, ["stage"] <+: p →
          flatten_tree exFS ["stage"] ["out"] (some "t") p = none)
      ∧ (∀ rel n, exFS (["stage"] ++ rel) = some n →
          flatten_tree exFS ["stage"] ["out"] (some "t")
            (flattenDestSeg ["out"] (some "t") ++ rel) = some n)
      ∧ (∀ p, ¬ ["stage"] <+: p →
          (¬ flattenDestSeg ["out"] (some "t") <+: p
            ∨ exFS (["stage"] ++ p.drop (flattenDestSeg ["out"] (some "t")).length)
              = none) →
          flatten_tree exFS ["stage"] ["out"] (some "t") p = exFS p)) :=
  ⟨by decide, by decide,
    flatten_tree_spec exFS ["stage"] ["out"] (some "t") (by decide) (by decide)⟩

/-- An archive routed to an extractor whose extraction fails makes
`ingestOne` raise the extraction error (the source wraps only the BinTag
split in a `try`). -/
theorem ingestOne_error (output_dir platform : String) (collapse : Bool)
    (extract : String → Except String (List String)) (a e : String)
    (st : IngestState) (h1 : routeArchive a ≠ .skipped)
    (h2 : extract a = .error e) :
    ingestOne output_dir platform collapse extract a st = .error e := by
  simp only [ingestOne]
  cases hr : routeArchive a with
  | skipped => exact absurd hr h1
  | tar => simp [h2]
  | zip => simp [h2]

/-- A failing extractable archive anywhere in a platform's list makes the
archive loop raise. -/
theorem ingestList_error (output_dir platform : String) (collapse : Bool)
    (extract : String → Except String (List String)) (a e : String)
    (h1 : routeArchive a ≠ .skipped) (h2 : extract a = .error e) :
    ∀ (l : List String) (st : IngestState), a ∈ l →
      ∃ e2, ingestList output_dir platform collapse extract l st = .error e2 := by
  intro l
  induction l with
  | nil => intro st h; cases h
  | cons b rest ih =>
    intro st hmem
    rcases List.mem_cons.mp hmem with hb | hb
    · subst hb
      refine ⟨e, ?_⟩
      simp only [ingestList]
      rw [ingestOne_error output_dir platform collapse extract a e st h1 h2]
    · simp only [ingestList]
      cases hstep : ingestOne output_dir platform collapse extract b st with
      | error e3 => exact ⟨e3, rfl⟩
      | ok st1 => exact ih st1 hb

/-- A failing extractable archive anywhere in the accumulator makes the
platform loop of `post_action` raise. -/
theorem ingestPlatforms_error (output_dir : String) (collapse : Bool)
    (extract : String → Except String (List String)) (a e p : String)
    (l : List String) (h1 : routeArchive a ≠ .skipped)
    (h2 : extract a = .error e) (ha : a ∈ l) :
    ∀ (archives : List (String × List String)) (st : IngestState),
      (p, l) ∈ archives →
      ∃ e2, ingestPlatforms output_dir collapse extract archives st = .error e2 := by
  intro archives
  induction archives with
  | nil => intro st h; cases h
  | cons q rest ih =>
    obtain ⟨q1, q2⟩ := q
    intro st hmem
    rcases List.mem_cons.mp hmem with hq | hq
    · injection hq with hq1 hq2
      subst hq1
      subst hq2
      obtain ⟨e2, he⟩ :=
        ingestList_error output_dir p collapse extract a e h1 h2 l st ha
      refine ⟨e2, ?_⟩
      simp only [ingestPlatforms]
      rw [he]
    · simp only [ingestPlatforms]
      cases hstep : ingestList output_dir q1 collapse extract q2 st with
      | error e3 => exact ⟨e3, rfl⟩
      | ok st1 => exact ih st1 hq

/-- A failing extractable archive in a non-empty accumulator makes
`post_action` raise instead of continuing. -/
theorem post_action_error (output_dir : String)
    (archives : List (String × List String)) (collapse dirExists : Bool)
    (extract : String → Except String (List String)) (a e p : String)
    (l : List String) (h1 : routeArchive a ≠ .skipped)
    (h2 : extract a = .error e) (ha : a ∈ l) (hmem : (p, l) ∈ archives) :
    ∃ e2, post_action output_dir archives collapse dirExists extract
      = .error e2 := by
  have hne : ¬ archives.length = 0 := by
    cases archives with
    | nil => cases hmem
    | cons q rest => simp
  simp only [post_action]
  rw [if_neg hne]
  exact ingestPlatforms_error output_dir collapse extract a e p l h1 h2 ha
    archives _ hmem

/-- C3 counterexample: with the manifest loading fine and a corrupt
archive, the `--download-only` run exits 1, not 0; the very same run with
a working extractor exits 0, so the non-zero exit is caused by the
extraction failure alone, refuting the claim that only a manifest
load/parse failure terminates the run with a non-zero status. -/
theorem main_exit_on_extraction_failure :
    main_download_only (.ok exManifestA) "/b/" none "linux-x86_64" none "out"
      "/cwd" (fun _ => 200) ["/cwd/p-q-r-s_t.tar.xz"]
      (fun _ => .error "corrupt") false = 1
    ∧ main_download_only (.ok exManifestA) "/b/" none "linux-x86_64" none "out"
      "/cwd" (fun _ => 200) ["/cwd/p-q-r-s_t.tar.xz"]
      (fun _ => .ok ["top/a", "top/b"]) false = 0 := by
  constructor
  · decide
  · decide

/-- C3 (amended): in a `--download-only` run, a failure to extract one
collected archive is not caught per archive: it propagates to the single
top-level handler in `main`, which terminates the run with exit status 1
— exactly as a manifest load/parse failure does. -/
theorem main_failure_propagation (parent : String) (cfil : Option String)
    (platform : String) (vfil : Option String) (output cwd : String)
    (status : String → Nat) (fs0 : List String)
    (extract : String → Except String (List String)) (dirExists : Bool)
    (manifest : List (String × List (String × JVal))) (s : WalkState)
    (p a e : String) (l : List String)
    (hwalk : fetch_action parent cfil (some platform) vfil true cwd status
      manifest (initState fs0) = .ok s)
    (hmem : (p, l) ∈ s.archives) (ha : a ∈ l)
    (hroute : routeArchive a ≠ .skipped) (hext : extract a = .error e) :
    main_download_only (.ok manifest) parent cfil platform vfil output cwd
      status fs0 extract dirExists = 1
    ∧ ∀ msg : String,
      main_download_only (.error msg) parent cfil platform vfil output cwd
        status fs0 extract dirExists = 1 := by
  constructor
  · obtain ⟨e2, hpost⟩ := post_action_error output s.archives true dirExists
      extract a e p l hroute hext ha hmem
    simp only [initState] at hwalk
    simp only [main_download_only, hwalk, hpost]
  · intro msg
    rfl

/-- C3 witness: the amended theorem applied to the concrete run on
`exManifestA` with the cached linux artifact and a corrupt-archive
extractor. -/
theorem main_failure_propagation_witness :
    main_download_only (.ok exManifestA) "/b/" none "linux-x86_64" none "out"
      "/cwd" (fun _ => 200) ["/cwd/p-q-r-s_t.tar.xz"]
      (fun _ => .error "corrupt") false = 1
    ∧ ∀ msg : String,
      main_download_only (.error msg) "/b/" none "linux-x86_64" none "out"
        "/cwd" (fun _ => 200) ["/cwd/p-q-r-s_t.tar.xz"]
        (fun _ => .error "corrupt") false = 1 :=
  main_failure_propagation "/b/" none "linux-x86_64" none "out" "/cwd"
    (fun _ => 200) ["/cwd/p-q-r-s_t.tar.xz"] (fun _ => .error "corrupt") false
    exManifestA exWalkStateA "linux-x86_64" "p-q-r-s_t.tar.xz" "corrupt"
    ["p-q-r-s_t.tar.xz"] rfl (by decide) (by decide) (by decide) rfl

/-- Definitional projection: `applyParse` records exactly one resolution. -/
@[simp] theorem applyParse_resolutions (parent rp component platform : String)
    (variant : Option String) (retrieve : Bool) (cwd : String)
    (status : String → Nat) (s : WalkState) :
    (applyParse parent rp component platform variant retrieve cwd status
      s).resolutions = s.resolutions ++ [(component, platform, variant)] := rfl

/-- Definitional projection: `applyParse` appends exactly the
`parse_artifact` log lines. -/
@[simp] theorem applyParse_log (parent rp component platform : String)
    (variant : Option String) (retrieve : Bool) (cwd : String)
    (status : String → Nat) (s : WalkState) :
    (applyParse parent rp component platform variant retrieve cwd status
      s).log = s.log
        ++ (parse_artifact parent rp component platform retrieve cwd s.fs
            status).log := rfl

/-- Definitional projection: `applyParse` touches the accumulator only at
the resolved platform's entry. -/
theorem applyParse_archives (parent rp component platform : String)
    (variant : Option String) (retrieve : Bool) (cwd : String)
    (status : String → Nat) (s : WalkState) :
    (applyParse parent rp component platform variant retrieve cwd status
      s).archives
      = match (parse_artifact parent rp component platform retrieve cwd s.fs
          status).recorded with
        | some a => appendAt s.archives platform a
        | none => s.archives := rfl

/-- C7: under an active platform filter `P`, a genuine platform entry of a
matched component — an object-valued key not containing the reserved
`variant` marker — proceeds to artifact resolution when its key is
exactly `P` or is literally `source` (for a flat entry: exactly one
`parse_artifact` invocation, with exactly that invocation's log lines
appended and no skip line), while any other such key is skipped with
exactly the `Skipping platform` log line, no resolution, and no archive
record: its `ARCHIVES` entry is only created empty. -/
theorem platformStep_source_passthrough (parent component P k cwd : String)
    (cf : Option String) (retrieve : Bool) (status : String → Nat)
    (kvs : List (String × JVal)) (s : WalkState)
    (hvar : containsSubstr k "variant" = false) :
    ((k = P ∨ k = "source") →
      ∀ rp : String, alookup kvs "relative_path" = some (.jstr rp) →
      ∃ s1, platformStep parent component (some P) cf retrieve cwd status k
          (.jobj kvs) s = .ok s1
        ∧ s1.resolutions = s.resolutions ++ [(component, k, none)]
        ∧ s1.log = s.log
            ++ (parse_artifact parent rp component k retrieve cwd s.fs
                status).log)
    ∧ (k ≠ P → k ≠ "source" →
        platformStep parent component (some P) cf retrieve cwd status k
          (.jobj kvs) s
        = .ok { s with archives := insertEmpty s.archives k,
                       log := s.log ++ ["  -> Skipping platform: " ++ k] }) := by
  constructor
  · intro h rp hrp
    have hne : (alookup kvs "relative_path").isNone = false := by
      rw [hrp]; rfl
    have hstep : platformStep parent component (some P) cf retrieve cwd status
        k (.jobj kvs) s
        = parse_artifact_s parent (.jobj kvs) component k retrieve none cwd
            status { s with archives := insertEmpty s.archives k } := by
      rcases h with rfl | rfl <;> simp [platformStep, hvar, hne]
    rw [hstep]
    simp only [parse_artifact_s, relPathOf, relPathValue, hrp]
    exact ⟨_, rfl, rfl, rfl⟩
  · intro hP hS
    simp [platformStep, hvar, hP, hS]

/-- C7 witness: the filter theorem applied to the `source` platform key of
a flat entry under the active filter `linux-x86_64`. -/
theorem platformStep_source_passthrough_witness :
    (("source" = "linux-x86_64" ∨ "source" = "source") →
      ∀ rp : String,
      alookup [("relative_path", JVal.jstr "src.tar.gz")] "relative_path"
        = some (.jstr rp) →
      ∃ s1, platformStep "/b/" "comp" (some "linux-x86_64") none true "/cwd"
          (fun _ => 200) "source"
          (.jobj [("relative_path", JVal.jstr "src.tar.gz")]) (initState [])
          = .ok s1
        ∧ s1.resolutions = (initState []).resolutions
            ++ [("comp", "source", none)]
        ∧ s1.log = (initState []).log
            ++ (parse_artifact "/b/" rp "comp" "source" true "/cwd"
                (initState []).fs (fun _ => 200)).log)
    ∧ ("source" ≠ "linux-x86_64" → "source" ≠ "source" →
        platformStep "/b/" "comp" (some "linux-x86_64") none true "/cwd"
          (fun _ => 200) "source"
          (.jobj [("relative_path", JVal.jstr "src.tar.gz")]) (initState [])
        = .ok { initState [] with
                archives := insertEmpty (initState []).archives "source",
                log := (initState []).log
                  ++ ["  -> Skipping platform: " ++ "source"] }) :=
  platformStep_source_passthrough "/b/" "comp" "linux-x86_64" "source" "/cwd"
    none true (fun _ => 200) [("relative_path", JVal.jstr "src.tar.gz")]
    (initState []) (by decide)

/-- Helper: with no variant filter, the variant loop invokes artifact
resolution once per pending variant key, in order. -/
theorem variantLoop_resolves_all (parent component k cwd : String)
    (retrieve : Bool) (status : String → Nat) (pobj : JVal) :
    ∀ (pending : List (String × JVal)) (s : WalkState),
      (∀ vkv ∈ pending, (relPathOf pobj (some vkv.1)).isSome = true) →
      ∃ s1, variantLoop parent component k none retrieve cwd status pobj
          pending s = .ok s1
        ∧ s1.resolutions = s.resolutions
            ++ pending.map (fun vkv => (component, k, some vkv.1)) := by
  intro pending
  induction pending with
  | nil => intro s h; exact ⟨s, rfl, by simp⟩
  | cons vkv rest ih =>
    intro s h
    obtain ⟨rp, hrp⟩ := Option.isSome_iff_exists.mp (h vkv (by simp))
    obtain ⟨s1, h1, h2⟩ :=
      ih (applyParse parent rp component k (some vkv.1) retrieve cwd status s)
        (fun w hw => h w (List.mem_cons_of_mem vkv hw))
    refine ⟨s1, ?_, ?_⟩
    · simp only [variantLoop, parse_artifact_s, hrp]
      exact h1
    · rw [h2]
      simp

/-- Helper: with an active variant filter, the variant loop resolves
exactly the matching keys and emits a skip line for every other key. -/
theorem variantLoop_filter_skips (parent component k cwd : String)
    (cf0 : String) (retrieve : Bool) (status : String → Nat) (pobj : JVal) :
    ∀ (pending : List (String × JVal)) (s : WalkState),
      (∀ vkv ∈ pending, (relPathOf pobj (some vkv.1)).isSome = true) →
      ∃ s2, variantLoop parent component k (some cf0) retrieve cwd status pobj
          pending s = .ok s2
        ∧ s2.resolutions = s.resolutions
            ++ (pending.filter (fun vkv => vkv.1 == cf0)).map
                (fun vkv => (component, k, some vkv.1))
        ∧ (∀ m ∈ s.log, m ∈ s2.log)
        ∧ ∀ vkv ∈ pending, vkv.1 ≠ cf0 →
            ("  -> Skipping variant: " ++ vkv.1) ∈ s2.log := by
  intro pending
  induction pending with
  | nil =>
    intro s h
    exact ⟨s, rfl, by simp, fun m hm => hm, by simp⟩
  | cons vkv rest ih =>
    intro s h
    by_cases hv : vkv.1 = cf0
    · obtain ⟨rp, hrp⟩ := Option.isSome_iff_exists.mp (h vkv (by simp))
      obtain ⟨s2, h1, h2, h3, h4⟩ :=
        ih (applyParse parent rp component k (some vkv.1) retrieve cwd status s)
          (fun w hw => h w (List.mem_cons_of_mem vkv hw))
      refine ⟨s2, ?_, ?_, ?_, ?_⟩
      · simp only [variantLoop, parse_artifact_s, hrp]
        rw [if_neg]
        · exact h1
        · simp [hv]
      · rw [h2]
        simp [List.filter_cons, hv]
      · intro m hm
        refine h3 m ?_
        simp [hm]
      · intro w hw hwne
        rcases List.mem_cons.mp hw with heq | hw2
        · rw [heq] at hwne
          exact absurd hv hwne
        · exact h4 w hw2 hwne
    · obtain ⟨s2, h1, h2, h3, h4⟩ :=
        ih { s with log := s.log ++ ["  -> Skipping variant: " ++ vkv.1] }
          (fun w hw => h w (List.mem_cons_of_mem vkv hw))
      refine ⟨s2, ?_, ?_, ?_, ?_⟩
      · simp only [variantLoop]
        rw [if_pos]
        · exact h1
        · simp [hv]
      · rw [h2]
        simp [List.filter_cons, hv]
      · intro m hm
        refine h3 m ?_
        simp [hm]
      · intro w hw hwne
        rcases List.mem_cons.mp hw with heq | hw2
        · rw [heq]
          refine h3 _ ?_
          simp
        · exact h4 w hw2 hwne

/-- C8: for a variant-nested platform entry, the variant loop with no
variant filter invokes artifact resolution once per variant key in order;
with an active variant filter only the exactly matching keys are resolved
and every other key gets a `Skipping variant` log line; and on the spec's
cudnn example manifest the full walk with no filters yields exactly the
two distinct archive records of the two variants for platform
`linux-x86_64`. -/
theorem variant_fanout (parent component k cwd : String) (retrieve : Bool)
    (status : String → Nat) (pobj : JVal) (pending : List (String × JVal))
    (s : WalkState)
    (hflat : ∀ vkv ∈ pending, (relPathOf pobj (some vkv.1)).isSome = true) :
    (∃ s1, variantLoop parent component k none retrieve cwd status pobj
        pending s = .ok s1
      ∧ s1.resolutions = s.resolutions
          ++ pending.map (fun vkv => (component, k, some vkv.1)))
    ∧ (∀ cf0 : String, ∃ s2,
        variantLoop parent component k (some cf0) retrieve cwd status pobj
          pending s = .ok s2
        ∧ s2.resolutions = s.resolutions
            ++ (pending.filter (fun vkv => vkv.1 == cf0)).map
                (fun vkv => (component, k, some vkv.1))
        ∧ ∀ vkv ∈ pending, vkv.1 ≠ cf0 →
            ("  -> Skipping variant: " ++ vkv.1) ∈ s2.log)
    ∧ (fetch_action "/b/" none none none true "/cwd" (fun _ => 200)
        exManifestB (initState []) = .ok exWalkStateB
      ∧ alookup exWalkStateB.archives "linux-x86_64"
          = some ["a-b-c-11.tar.gz", "a-b-c-12.tar.gz"]
      ∧ ("a-b-c-11.tar.gz" : String) ≠ "a-b-c-12.tar.gz") := by
  refine ⟨variantLoop_resolves_all parent component k cwd retrieve status pobj
      pending s hflat, ?_, rfl, by decide, by decide⟩
  intro cf0
  obtain ⟨s2, h1, h2, _, h4⟩ := variantLoop_filter_skips parent component k
    cwd cf0 retrieve status pobj pending s hflat
  exact ⟨s2, h1, h2, h4⟩

/-- C8 witness: the fan-out theorem applied to the example variant map
`exVariants` (cuda11/cuda12) from the initial state. -/
theorem variant_fanout_witness :
    (∃ s1, variantLoop "/b/" "cudnn_x" "linux-x86_64" none true "/cwd"
        (fun _ => 200) (.jobj exVariants) exVariants (initState []) = .ok s1
      ∧ s1.resolutions = (initState []).resolutions
          ++ exVariants.map
              (fun vkv => ("cudnn_x", "linux-x86_64", some vkv.1)))
    ∧ (∀ cf0 : String, ∃ s2,
        variantLoop "/b/" "cudnn_x" "linux-x86_64" (some cf0) true "/cwd"
          (fun _ => 200) (.jobj exVariants) exVariants (initState []) = .ok s2
        ∧ s2.resolutions = (initState []).resolutions
            ++ (exVariants.filter (fun vkv => vkv.1 == cf0)).map
                (fun vkv => ("cudnn_x", "linux-x86_64", some vkv.1))
        ∧ ∀ vkv ∈ exVariants, vkv.1 ≠ cf0 →
            ("  -> Skipping variant: " ++ vkv.1) ∈ s2.log)
    ∧ (fetch_action "/b/" none none none true "/cwd" (fun _ => 200)
        exManifestB (initState []) = .ok exWalkStateB
      ∧ alookup exWalkStateB.archives "linux-x86_64"
          = some ["a-b-c-11.tar.gz", "a-b-c-12.tar.gz"]
      ∧ ("a-b-c-11.tar.gz" : String) ≠ "a-b-c-12.tar.gz") :=
  variant_fanout "/b/" "cudnn_x" "linux-x86_64" "/cwd" true (fun _ => 200)
    (.jobj exVariants) exVariants (initState []) (by decide)

/-- Association lookup over a cons cell. -/
theorem alookup_cons {α : Type} (kv : String × α) (rest : List (String × α))
    (x : String) :
    alookup (kv :: rest) x = if kv.1 = x then some kv.2 else alookup rest x := by
  by_cases h : kv.1 = x
  · rw [if_pos h]
    simp only [alookup]
    rw [List.find?_cons_of_pos _ (by simp [h])]
    rfl
  · rw [if_neg h]
    simp only [alookup]
    rw [List.find?_cons_of_neg _ (by simp [h])]

/-- Association lookup over an append: the left list wins. -/
theorem alookup_append {α : Type} (m m2 : List (String × α)) (x : String) :
    alookup (m ++ m2) x
      = match alookup m x with
        | some v => some v
        | none => alookup m2 x := by
  induction m with
  | nil => simp [alookup]
  | cons kv rest ih =>
    by_cases h : kv.1 = x
    · simp [alookup_cons, h]
    · simp [alookup_cons, h, ih]

/-- `appendAt` characterized: it extends the value at `k` (when present)
and changes nothing else. -/
theorem alookup_appendAt (m : List (String × List String)) (k v x : String) :
    alookup (appendAt m k v) x
      = if x = k then (alookup m x).map (fun l => l ++ [v])
        else alookup m x := by
  induction m with
  | nil => simp [appendAt, alookup]
  | cons kv rest ih =>
    have hcons : appendAt (kv :: rest) k v
        = (if (kv.1 == k) = true then (kv.1, kv.2 ++ [v]) else kv)
            :: appendAt rest k v := rfl
    rw [hcons]
    by_cases hk : kv.1 = k
    · rw [if_pos (by simp [hk])]
      by_cases hx : kv.1 = x
      · have hxk : x = k := by rw [← hx, hk]
        rw [alookup_cons, if_pos hx, if_pos hxk, alookup_cons, if_pos hx]
        rfl
      · have hxk : ¬ x = k := fun he => hx (by rw [hk, ← he])
        rw [alookup_cons, if_neg hx, ih, if_neg hxk, if_neg hxk,
          alookup_cons, if_neg hx]
    · rw [if_neg (by simp [hk])]
      by_cases hx : kv.1 = x
      · have hxk : ¬ x = k := fun he => hk (by rw [hx, he])
        rw [alookup_cons, if_pos hx, if_neg hxk, alookup_cons, if_pos hx]
      · rw [alookup_cons, if_neg hx, ih, alookup_cons, if_neg hx]

/-- `appendAt` never creates or removes keys. -/
theorem alookup_appendAt_isSome (m : List (String × List String))
    (k v x : String) :
    (alookup (appendAt m k v) x).isSome = (alookup m x).isSome := by
  rw [alookup_appendAt]
  by_cases h : x = k
  · rw [if_pos h]
    cases alookup m x <;> simp
  · rw [if_neg h]

/-- `insertEmpty` does not disturb present keys. -/
theorem alookup_insertEmpty_of_isSome (m : List (String × List String))
    (k x : String) (h : (alookup m x).isSome = true) :
    alookup (insertEmpty m k) x = alookup m x := by
  simp only [insertEmpty]
  split
  · rfl
  · rw [alookup_append]
    obtain ⟨v, hv⟩ := Option.isSome_iff_exists.mp h
    rw [hv]

/-- After `insertEmpty m k` the key `k` is present. -/
theorem alookup_insertEmpty_self_isSome (m : List (String × List String))
    (k : String) :
    (alookup (insertEmpty m k) k).isSome = true := by
  simp only [insertEmpty]
  split
  · rename_i hguard
    simpa [alookup] using hguard
  · rw [alookup_append]
    cases hmk : alookup m k with
    | some v => simp
    | none => simp [alookup_cons]

/-- A non-empty list found after `insertEmpty` was already there before. -/
theorem alookup_insertEmpty_inv (m : List (String × List String))
    (k x : String) (l : List String)
    (h : alookup (insertEmpty m k) x = some l) (hne : l ≠ []) :
    alookup m x = some l := by
  simp only [insertEmpty] at h
  split at h
  · exact h
  · rw [alookup_append] at h
    cases hmx : alookup m x with
    | some v => rw [hmx] at h; exact h
    | none =>
      rw [hmx, alookup_cons] at h
      by_cases hkx : k = x
      · rw [if_pos hkx] at h
        injection h with h
        exact absurd h.symm hne
      · rw [if_neg hkx] at h
        simp [alookup] at h

/-- `applyParse` never creates or removes accumulator keys. -/
theorem applyParse_keys (parent rp component platform : String)
    (variant : Option String) (retrieve : Bool) (cwd : String)
    (status : String → Nat) (s : WalkState) (x : String) :
    (alookup (applyParse parent rp component platform variant retrieve cwd
      status s).archives x).isSome
      = (alookup s.archives x).isSome := by
  rw [applyParse_archives]
  cases hrec : (parse_artifact parent rp component platform retrieve cwd s.fs
      status).recorded with
  | none => rfl
  | some a => exact alookup_appendAt_isSome s.archives platform a x

/-- A successful resolution step preserves present accumulator keys. -/
theorem parse_artifact_s_keys (parent : String) (pobj : JVal)
    (component platform : String) (retrieve : Bool) (variant : Option String)
    (cwd : String) (status : String → Nat) (s s1 : WalkState)
    (h : parse_artifact_s parent pobj component platform retrieve variant cwd
      status s = .ok s1) (x : String)
    (hx : (alookup s.archives x).isSome = true) :
    (alookup s1.archives x).isSome = true := by
  simp only [parse_artifact_s] at h
  cases hrp : relPathOf pobj variant with
  | none => rw [hrp] at h; cases h
  | some rp =>
    rw [hrp] at h
    injection h with h
    rw [← h, applyParse_keys]
    exact hx

/-- The variant loop preserves present accumulator keys. -/
theorem variantLoop_keys (parent component k cwd : String)
    (cf : Option String) (retrieve : Bool) (status : String → Nat)
    (pobj : JVal) :
    ∀ (pending : List (String × JVal)) (s s2 : WalkState),
      variantLoop parent component k cf retrieve cwd status pobj pending s
        = .ok s2 →
      ∀ x, (alookup s.archives x).isSome = true →
        (alookup s2.archives x).isSome = true := by
  intro pending
  induction pending with
  | nil =>
    intro s s2 h x hx
    injection h with h
    rw [← h]
    exact hx
  | cons vkv rest ih =>
    intro s s2 h x hx
    simp only [variantLoop] at h
    split at h
    · exact ih _ s2 h x hx
    · split at h
      · cases h
      · rename_i smid hpas
        exact ih smid s2 h x
          (parse_artifact_s_keys parent pobj component k retrieve
            (some vkv.1) cwd status s smid hpas x hx)

/-- One platform step preserves present accumulator keys. -/
theorem platformStep_keys (parent component : String)
    (pfil cfil : Option String) (retrieve : Bool) (cwd : String)
    (status : String → Nat) (k : String) (pval : JVal) (s s1 : WalkState)
    (h : platformStep parent component pfil cfil retrieve cwd status k pval s
      = .ok s1) (x : String)
    (hx : (alookup s.archives x).isSome = true) :
    (alookup s1.archives x).isSome = true := by
  have hins : (alookup (insertEmpty s.archives k) x).isSome = true := by
    rw [alookup_insertEmpty_of_isSome s.archives k x hx]
    exact hx
  cases pval with
  | jstr v =>
    simp only [platformStep] at h
    by_cases hvar : containsSubstr k "variant" = true
    · rw [if_pos hvar] at h
      injection h with h
      rw [← h]
      exact hx
    · rw [if_neg hvar] at h
      injection h with h
      rw [← h]
      exact hins
  | jobj kvs =>
    simp only [platformStep] at h
    split at h
    · injection h with h
      rw [← h]
      exact hx
    · split at h
      · injection h with h
        rw [← h]
        exact hins
      · split at h
        · exact variantLoop_keys parent component k cwd cfil retrieve status
            (.jobj kvs) kvs _ s1 h x hins
        · exact parse_artifact_s_keys parent (.jobj kvs) component k retrieve
            none cwd status _ s1 h x hins

/-- A platform step on a non-`variant` key makes that key present. -/
theorem platformStep_creates (parent component : String)
    (pfil cfil : Option String) (retrieve : Bool) (cwd : String)
    (status : String → Nat) (k : String) (pval : JVal) (s s1 : WalkState)
    (h : platformStep parent component pfil cfil retrieve cwd status k pval s
      = .ok s1)
    (hvar : containsSubstr k "variant" = false) :
    (alookup s1.archives k).isSome = true := by
  have hbase : (alookup (insertEmpty s.archives k) k).isSome = true :=
    alookup_insertEmpty_self_isSome s.archives k
  have hvt : ¬ containsSubstr k "variant" = true := by simp [hvar]
  cases pval with
  | jstr v =>
    simp only [platformStep] at h
    rw [if_neg hvt] at h
    injection h with h
    rw [← h]
    exact hbase
  | jobj kvs =>
    simp only [platformStep] at h
    rw [if_neg hvt] at h
    split at h
    · injection h with h
      rw [← h]
      exact hbase
    · split at h
      · exact variantLoop_keys parent component k cwd cfil retrieve status
          (.jobj kvs) kvs _ s1 h k hbase
      · exact parse_artifact_s_keys parent (.jobj kvs) component k retrieve
          none cwd status _ s1 h k hbase

/-- The platform loop preserves present accumulator keys. -/
theorem platformLoop_keys (parent component : String)
    (pfil cfil : Option String) (retrieve : Bool) (cwd : String)
    (status : String → Nat) :
    ∀ (entries : List (String × JVal)) (s s2 : WalkState),
      platformLoop parent component pfil cfil retrieve cwd status entries s
        = .ok s2 →
      ∀ x, (alookup s.archives x).isSome = true →
        (alookup s2.archives x).isSome = true := by
  intro entries
  induction entries with
  | nil =>
    intro s s2 h x hx
    injection h with h
    rw [← h]
    exact hx
  | cons kv rest ih =>
    intro s s2 h x hx
    simp only [platformLoop] at h
    cases hstep : platformStep parent component pfil cfil retrieve cwd status
        kv.1 kv.2 s with
    | error e => rw [hstep] at h; cases h
    | ok smid =>
      rw [hstep] at h
      exact ih smid s2 h x
        (platformStep_keys parent component pfil cfil retrieve cwd status
          kv.1 kv.2 s smid hstep x hx)

/-- After the platform loop, every iterated non-`variant` key is present. -/
theorem platformLoop_creates (parent component : String)
    (pfil cfil : Option String) (retrieve : Bool) (cwd : String)
    (status : String → Nat) :
    ∀ (entries : List (String × JVal)) (s s2 : WalkState),
      platformLoop parent component pfil cfil retrieve cwd status entries s
        = .ok s2 →
      ∀ kv ∈ entries, containsSubstr kv.1 "variant" = false →
        (alookup s2.archives kv.1).isSome = true := by
  intro entries
  induction entries with
  | nil => intro s s2 h kv hkv; cases hkv
  | cons kv0 rest ih =>
    intro s s2 h kv hkv hv
    simp only [platformLoop] at h
    cases hstep : platformStep parent component pfil cfil retrieve cwd status
        kv0.1 kv0.2 s with
    | error e => rw [hstep] at h; cases h
    | ok smid =>
      rw [hstep] at h
      rcases List.mem_cons.mp hkv with heq | hmem2
      · subst heq
        exact platformLoop_keys parent component pfil cfil retrieve cwd status
          rest smid s2 h kv.1
          (platformStep_creates parent component pfil cfil retrieve cwd status
            kv.1 kv.2 s smid hstep hv)
      · exact ih smid s2 h kv hmem2 hv

/-- One component walk preserves present accumulator keys. -/
theorem walkComponent_keys (parent : String) (cfil pfil vfil : Option String)
    (retrieve : Bool) (cwd : String) (status : String → Nat)
    (comp : String) (centry : List (String × JVal)) (s s2 : WalkState)
    (h : walkComponent parent cfil pfil vfil retrieve cwd status comp centry s
      = .ok s2)
    (x : String) (hx : (alookup s.archives x).isSome = true) :
    (alookup s2.archives x).isSome = true := by
  simp only [walkComponent] at h
  split at h
  · injection h with h
    rw [← h]
    exact hx
  · split at h
    · injection h with h
      rw [← h]
      exact hx
    · split at h
      · exact platformLoop_keys parent comp pfil vfil retrieve cwd status
          centry _ s2 h x hx
      · cases h

/-- After walking a component that passes the name and component-filter
guards, every non-`variant` key of the component entry is present in the
accumulator. -/
theorem walkComponent_creates (parent : String)
    (cfil pfil vfil : Option String) (retrieve : Bool) (cwd : String)
    (status : String → Nat) (comp : String)
    (centry : List (String × JVal)) (n ver : String) (s s2 : WalkState)
    (h : walkComponent parent cfil pfil vfil retrieve cwd status comp centry s
      = .ok s2)
    (hn : alookup centry "name" = some (.jstr n))
    (hver : alookup centry "version" = some (.jstr ver))
    (hpass : cfil = none ∨ cfil = some comp) :
    ∀ kv ∈ centry, containsSubstr kv.1 "variant" = false →
      (alookup s2.archives kv.1).isSome = true := by
  simp only [walkComponent] at h
  rw [if_neg (by rw [hn]; simp)] at h
  rcases hpass with rfl | rfl
  · rw [if_neg (by simp)] at h
    simp only [hn, hver] at h
    exact platformLoop_creates parent comp pfil vfil retrieve cwd status
      centry _ s2 h
  · rw [if_neg (by simp)] at h
    simp only [hn, hver] at h
    exact platformLoop_creates parent comp pfil vfil retrieve cwd status
      centry _ s2 h

/-- The manifest walk preserves present accumulator keys. -/
theorem fetch_action_keys (parent : String) (cfil pfil vfil : Option String)
    (retrieve : Bool) (cwd : String) (status : String → Nat) :
    ∀ (manifest : List (String × List (String × JVal))) (s s2 : WalkState),
      fetch_action parent cfil pfil vfil retrieve cwd status manifest s
        = .ok s2 →
      ∀ x, (alookup s.archives x).isSome = true →
        (alookup s2.archives x).isSome = true := by
  intro manifest
  induction manifest with
  | nil =>
    intro s s2 h x hx
    injection h with h
    rw [← h]
    exact hx
  | cons ce rest ih =>
    intro s s2 h x hx
    simp only [fetch_action] at h
    cases hstep : walkComponent parent cfil pfil vfil retrieve cwd status
        ce.1 ce.2 s with
    | error e => rw [hstep] at h; cases h
    | ok smid =>
      rw [hstep] at h
      exact ih smid s2 h x
        (walkComponent_keys parent cfil pfil vfil retrieve cwd status ce.1
          ce.2 s smid hstep x hx)

/-- After the manifest walk, every non-`variant` key of every component
that passes the name and component-filter guards is a key of the
accumulator. -/
theorem fetch_action_creates (parent : String)
    (cfil pfil vfil : Option String) (retrieve : Bool) (cwd : String)
    (status : String → Nat) :
    ∀ (manifest : List (String × List (String × JVal))) (s s2 : WalkState),
      fetch_action parent cfil pfil vfil retrieve cwd status manifest s
        = .ok s2 →
      ∀ (comp : String) (centry : List (String × JVal)) (n ver : String),
        (comp, centry) ∈ manifest →
        alookup centry "name" = some (.jstr n) →
        alookup centry "version" = some (.jstr ver) →
        (cfil = none ∨ cfil = some comp) →
        ∀ kv ∈ centry, containsSubstr kv.1 "variant" = false →
          (alookup s2.archives kv.1).isSome = true := by
  intro manifest
  induction manifest with
  | nil => intro s s2 h comp centry n ver hmem; cases hmem
  | cons ce rest ih =>
    intro s s2 h comp centry n ver hmem hn hver hpass kv hkv hvar
    simp only [fetch_action] at h
    cases hstep : walkComponent parent cfil pfil vfil retrieve cwd status
        ce.1 ce.2 s with
    | error e => rw [hstep] at h; cases h
    | ok smid =>
      rw [hstep] at h
      rcases List.mem_cons.mp hmem with heq | hmem2
      · rw [← heq] at hstep
        exact fetch_action_keys parent cfil pfil vfil retrieve cwd status rest
          smid s2 h kv.1
          (walkComponent_creates parent cfil pfil vfil retrieve cwd status
            comp centry n ver s smid hstep hn hver hpass kv hkv hvar)
      · exact ih smid s2 h comp centry n ver hmem2 hn hver hpass kv hkv hvar

/-- `insertEmpty` preserves the filter restriction (new entries are
empty). -/
theorem restrictedTo_insertEmpty (P : String)
    (m : List (String × List String)) (k : String)
    (h : restrictedTo P m) : restrictedTo P (insertEmpty m k) := by
  intro x l hl hne
  exact h x l (alookup_insertEmpty_inv m k x l hl hne) hne

/-- `appendAt` at a platform passing the filter preserves the
restriction. -/
theorem restrictedTo_appendAt (P : String)
    (m : List (String × List String)) (p v : String)
    (hp : p = P ∨ p = "source") (h : restrictedTo P m) :
    restrictedTo P (appendAt m p v) := by
  intro x l hl hne
  rw [alookup_appendAt] at hl
  by_cases hx : x = p
  · rw [hx]
    exact hp
  · rw [if_neg hx] at hl
    exact h x l hl hne

/-- `applyParse` at a passing platform preserves the restriction. -/
theorem restrictedTo_applyParse (P parent rp component platform : String)
    (variant : Option String) (retrieve : Bool) (cwd : String)
    (status : String → Nat) (s : WalkState)
    (hp : platform = P ∨ platform = "source")
    (h : restrictedTo P s.archives) :
    restrictedTo P (applyParse parent rp component platform variant retrieve
      cwd status s).archives := by
  rw [applyParse_archives]
  cases (parse_artifact parent rp component platform retrieve cwd s.fs
      status).recorded with
  | none => exact h
  | some a => exact restrictedTo_appendAt P s.archives platform a hp h

/-- A resolution step at a passing platform preserves the restriction. -/
theorem restrictedTo_parse_s (P parent : String) (pobj : JVal)
    (component platform : String) (retrieve : Bool) (variant : Option String)
    (cwd : String) (status : String → Nat) (s s1 : WalkState)
    (h : parse_artifact_s parent pobj component platform retrieve variant cwd
      status s = .ok s1)
    (hp : platform = P ∨ platform = "source")
    (hr : restrictedTo P s.archives) : restrictedTo P s1.archives := by
  simp only [parse_artifact_s] at h
  split at h
  · cases h
  · rename_i rp hrp
    injection h with h
    rw [← h]
    exact restrictedTo_applyParse P parent rp component platform variant
      retrieve cwd status s hp hr

/-- The variant loop at a passing platform preserves the restriction. -/
theorem restrictedTo_variantLoop (P parent component k cwd : String)
    (cf : Option String) (retrieve : Bool) (status : String → Nat)
    (pobj : JVal) :
    ∀ (pending : List (String × JVal)) (s s2 : WalkState),
      variantLoop parent component k cf retrieve cwd status pobj pending s
        = .ok s2 →
      (k = P ∨ k = "source") → restrictedTo P s.archives →
      restrictedTo P s2.archives := by
  intro pending
  induction pending with
  | nil =>
    intro s s2 h hp hr
    injection h with h
    rw [← h]
    exact hr
  | cons vkv rest ih =>
    intro s s2 h hp hr
    simp only [variantLoop] at h
    split at h
    · exact ih _ s2 h hp hr
    · split at h
      · cases h
      · rename_i smid hpas
        exact ih smid s2 h hp
          (restrictedTo_parse_s P parent pobj component k retrieve
            (some vkv.1) cwd status s smid hpas hp hr)

/-- One platform step under the platform filter `P` preserves the
restriction: a resolution only ever happens at `P` or `source`. -/
theorem restrictedTo_platformStep (P parent component : String)
    (cfil : Option String) (retrieve : Bool) (cwd : String)
    (status : String → Nat) (k : String) (pval : JVal) (s s1 : WalkState)
    (h : platformStep parent component (some P) cfil retrieve cwd status k
      pval s = .ok s1)
    (hr : restrictedTo P s.archives) : restrictedTo P s1.archives := by
  have hins : restrictedTo P (insertEmpty s.archives k) :=
    restrictedTo_insertEmpty P s.archives k hr
  cases pval with
  | jstr v =>
    simp only [platformStep] at h
    split at h
    · injection h with h
      rw [← h]
      exact hr
    · injection h with h
      rw [← h]
      exact hins
  | jobj kvs =>
    simp only [platformStep] at h
    split at h
    · injection h with h
      rw [← h]
      exact hr
    · split at h
      · injection h with h
        rw [← h]
        exact hins
      · rename_i hskip
        have hp : k = P ∨ k = "source" := by
          by_cases h1 : k = P
          · exact Or.inl h1
          · by_cases h2 : k = "source"
            · exact Or.inr h2
            · exact absurd (by simp [h1, h2]) hskip
        split at h
        · exact restrictedTo_variantLoop P parent component k cwd cfil
            retrieve status (.jobj kvs) kvs _ s1 h hp hins
        · exact restrictedTo_parse_s P parent (.jobj kvs) component k retrieve
            none cwd status _ s1 h hp hins

/-- The platform loop under the platform filter `P` preserves the
restriction. -/
theorem restrictedTo_platformLoop (P parent component : String)
    (cfil : Option String) (retrieve : Bool) (cwd : String)
    (status : String → Nat) :
    ∀ (entries : List (String × JVal)) (s s2 : WalkState),
      platformLoop parent component (some P) cfil retrieve cwd status entries
        s = .ok s2 →
      restrictedTo P s.archives → restrictedTo P s2.archives := by
  intro entries
  induction entries with
  | nil =>
    intro s s2 h hr
    injection h with h
    rw [← h]
    exact hr
  | cons kv rest ih =>
    intro s s2 h hr
    simp only [platformLoop] at h
    split at h
    · cases h
    · rename_i smid hstep
      exact ih smid s2 h
        (restrictedTo_platformStep P parent component cfil retrieve cwd status
          kv.1 kv.2 s smid hstep hr)

/-- One component walk under the platform filter `P` preserves the
restriction. -/
theorem restrictedTo_walkComponent (P parent : String)
    (cfil vfil : Option String) (retrieve : Bool) (cwd : String)
    (status : String → Nat) (comp : String)
    (centry : List (String × JVal)) (s s2 : WalkState)
    (h : walkComponent parent cfil (some P) vfil retrieve cwd status comp
      centry s = .ok s2)
    (hr : restrictedTo P s.archives) : restrictedTo P s2.archives := by
  simp only [walkComponent] at h
  split at h
  · injection h with h
    rw [← h]
    exact hr
  · split at h
    · injection h with h
      rw [← h]
      exact hr
    · split at h
      · exact restrictedTo_platformLoop P parent comp vfil retrieve cwd status
          centry _ s2 h hr
      · cases h

/-- The full walk under the platform filter `P` preserves the
restriction. -/
theorem restrictedTo_fetch_action (P parent : String)
    (cfil vfil : Option String) (retrieve : Bool) (cwd : String)
    (status : String → Nat) :
    ∀ (manifest : List (String × List (String × JVal))) (s s2 : WalkState),
      fetch_action parent cfil (some P) vfil retrieve cwd status manifest s
        = .ok s2 →
      restrictedTo P s.archives → restrictedTo P s2.archives := by
  intro manifest
  induction manifest with
  | nil =>
    intro s s2 h hr
    injection h with h
    rw [← h]
    exact hr
  | cons ce rest ih =>
    intro s s2 h hr
    simp only [fetch_action] at h
    split at h
    · cases h
    · rename_i smid hstep
      exact ih smid s2 h
        (restrictedTo_walkComponent P parent cfil vfil retrieve cwd status
          ce.1 ce.2 s smid hstep hr)

/-- Ingesting platforms whose archive lists are all empty is a no-op. -/
theorem ingestPlatforms_all_empty (output_dir : String) (collapse : Bool)
    (extract : String → Except String (List String)) :
    ∀ (archives : List (String × List String)) (st : IngestState),
      (∀ kv ∈ archives, kv.2 = []) →
      ingestPlatforms output_dir collapse extract archives st = .ok st := by
  intro archives
  induction archives with
  | nil => intro st h; rfl
  | cons q rest ih =>
    intro st h
    have hq : q.2 = [] := h q (by simp)
    simp only [ingestPlatforms, hq, ingestList]
    exact ih st (fun w hw => h w (List.mem_cons_of_mem q hw))

/-- C10: `fetch_action` enters platform keys into the global `ARCHIVES`
accumulator (with an empty list) before applying the platform filter:
after a successful walk from the empty accumulator, (i) every key not
containing `variant` of every component passing the name and
component-filter guards is a key of the accumulator, (ii) every key other
than the filtered platform `P` and `source` is still mapped to the empty
list, and (iii) on a non-empty accumulator whose lists are all empty,
`post_action` still creates the missing output directory and performs no
extraction. -/
theorem archives_keys_invariant (parent : String) (cfil : Option String)
    (P : String) (vfil : Option String) (retrieve : Bool) (cwd : String)
    (status : String → Nat) (fs0 : List String)
    (manifest : List (String × List (String × JVal))) (s2 : WalkState)
    (hwalk : fetch_action parent cfil (some P) vfil retrieve cwd status
      manifest (initState fs0) = .ok s2) :
    (∀ (comp : String) (centry : List (String × JVal)) (n ver : String),
      (comp, centry) ∈ manifest →
      alookup centry "name" = some (.jstr n) →
      alookup centry "version" = some (.jstr ver) →
      (cfil = none ∨ cfil = some comp) →
      ∀ kv ∈ centry, containsSubstr kv.1 "variant" = false →
        (alookup s2.archives kv.1).isSome = true)
    ∧ (∀ (x : String) (l : List String), alookup s2.archives x = some l →
        x ≠ P → x ≠ "source" → l = [])
    ∧ (∀ (output : String) (collapse : Bool)
        (extract : String → Except String (List String)),
        s2.archives ≠ [] → (∀ kv ∈ s2.archives, kv.2 = []) →
        post_action output s2.archives collapse false extract
          = .ok { log := ["\nArchives:"], mkdirs := [output], extracted := [],
                  permfixed := [], flattens := [] }) := by
  refine ⟨?_, ?_, ?_⟩
  · intro comp centry n ver hmem hn hver hpass kv hkv hvar
    exact fetch_action_creates parent cfil (some P) vfil retrieve cwd status
      manifest (initState fs0) s2 hwalk comp centry n ver hmem hn hver hpass
      kv hkv hvar
  · intro x l hl hxP hxS
    by_contra hne
    have hinit : restrictedTo P (initState fs0).archives := by
      intro k0 l0 h0 hne0
      simp [alookup, initState] at h0
    rcases restrictedTo_fetch_action P parent cfil vfil retrieve cwd status
        manifest (initState fs0) s2 hwalk hinit x l hl hne with hP | hS
    · exact hxP hP
    · exact hxS hS
  · intro output collapse extract hne hempty
    have hlen : ¬ s2.archives.length = 0 :=
      fun h0 => hne (List.length_eq_zero.mp h0)
    simp only [post_action]
    rw [if_neg hlen]
    exact ingestPlatforms_all_empty output collapse extract s2.archives _
      hempty

/-- C10 witness: the invariant theorem applied to the concrete run of
`exManifestC` under the platform filter `other-arch`, which matches no
platform: all four component keys end up in the accumulator mapped to
empty lists, and `post_action` still creates the output directory. -/
theorem archives_keys_invariant_witness :
    (∀ (comp : String) (centry : List (String × JVal)) (n ver : String),
      (comp, centry) ∈ exManifestC →
      alookup centry "name" = some (.jstr n) →
      alookup centry "version" = some (.jstr ver) →
      ((none : Option String) = none ∨ (none : Option String) = some comp) →
      ∀ kv ∈ centry, containsSubstr kv.1 "variant" = false →
        (alookup exWalkStateC.archives kv.1).isSome = true)
    ∧ (∀ (x : String) (l : List String),
        alookup exWalkStateC.archives x = some l →
        x ≠ "other-arch" → x ≠ "source" → l = [])
    ∧ (∀ (output : String) (collapse : Bool)
        (extract : String → Except String (List String)),
        exWalkStateC.archives ≠ [] →
        (∀ kv ∈ exWalkStateC.archives, kv.2 = []) →
        post_action output exWalkStateC.archives collapse false extract
          = .ok { log := ["\nArchives:"], mkdirs := [output], extracted := [],
                  permfixed := [], flattens := [] }) :=
  archives_keys_invariant "/b/" none "other-arch" none true "/cwd"
    (fun _ => 200) [] exManifestC exWalkStateC rfl

end DN
